import Mathlib

/-!
# ExifSort — verification of the batch photo-renaming pipeline

Shallow embedding of `src/main.rs` of the ExifSort repository.

The program renames JPEG photos into a destination directory after their
EXIF capture timestamp (`DateTimeOriginal`), in three phases:

* Phase 1 (`get_date_taken` mapped over all candidates): read each file
  (a 64 KiB head window by default, the whole file with `--full-scan`),
  decode the EXIF entries, and return the `DateTimeOriginal` value.
* Phase 2 (sequential planning loop): turn each timestamp into a file
  name (`:` ↦ `-`, space ↦ `_`, extension `.jpg`), resolving collisions
  against the names already claimed in this run and against the files
  already present in the destination directory by appending `_1`, `_2`, …
* Phase 3: perform the planned renames; failures of either phase are
  collected and reported at the end without affecting the exit status.

File contents are byte lists, paths are their textual form, the EXIF
decoder (`rexif::parse_buffer`) is a black-box function parameter, and
the file system observed by the planner is a finite list of existing
destination paths.  Machine integers do not occur in the modelled code
(`counter` is a Rust `i32` but, as proved below, the planning loop stays
far below any overflow bound, so `Nat` is faithful).
-/

namespace ExifSort

/-- A filesystem path in its textual form. -/
abbrev Path := String

/-! ## Timestamp extraction (`get_date_taken`, main.rs lines 28–47) -/

/-- EXIF tag identifiers, to the extent the program distinguishes them:
the capture timestamp tag versus everything else. -/
inductive ExifTag where
  | dateTimeOriginal
  | otherTag (code : Nat)
deriving DecidableEq

/-- A decoded EXIF entry: a tag together with its textual value
(the source reads `entry.value.to_string()`). -/
structure ExifEntry where
  tag : ExifTag
  value : String
deriving DecidableEq

/-- Typed per-file extraction failures (spec §7): an I/O failure while
opening/reading, a decoder rejection, or a missing `DateTimeOriginal`
tag.  The source funnels all three into `Box<dyn Error>`; the kind
records which of the three `?`/`Err` sites produced the failure. -/
inductive ExtractionError where
  | ioFailure
  | decodeFailure
  | tagNotFound
deriving DecidableEq

/-- Outcome of `fs::File::open` plus reading a candidate file: the full
byte content of the file, or an I/O failure. -/
abbrev ReadResult := Except Unit (List Nat)

/-- The EXIF decoder (`rexif::parse_buffer`), a black box mapping a byte
buffer to a decoded entry list or a decode failure. -/
abbrev Decoder := List Nat → Except Unit (List ExifEntry)

/-- The 64 KiB head-window size of the default (non `--full-scan`) mode. -/
def prefixBound : Nat := 64 * 1024

/-- `get_date_taken` (main.rs 28–47).  On success the file content is
`content`; in full-scan mode the whole content is handed to the decoder,
otherwise only the first 64 KiB (`file.read` into a 64 KiB buffer
returns `min (length, 64 KiB)` bytes of a regular file, i.e. the
prefix).  The decoded entries are scanned in order for the first
`DateTimeOriginal` entry, whose value is returned verbatim. -/
def get_date_taken (fileContent : ReadResult) (parse_buffer : Decoder)
    (full_scan : Bool) : Except ExtractionError String :=
  match fileContent with
  | .error _ => .error .ioFailure
  | .ok content =>
    let buffer := if full_scan then content else content.take prefixBound
    match parse_buffer buffer with
    | .error _ => .error .decodeFailure
    | .ok entries =>
      match entries.find? (fun e => e.tag = ExifTag.dateTimeOriginal) with
      | some entry => .ok entry.value
      | none => .error .tagNotFound

/-! ## Decimal representation of the collision counter

The planning loop prints the counter with `format!` (`Nat.repr` in this
embedding).  The termination and no-collision arguments need that
distinct counters yield distinct names, i.e. that `Nat.repr` is
injective; neither the core library nor Mathlib provides this, so it is
proved here through a Horner-evaluation roundtrip. -/

/-- Numeric value of a decimal digit character (inverse of
`Nat.digitChar` on `0..9`). -/
def charVal (c : Char) : Nat := c.toNat - 48

/-- Horner evaluation of a big-endian decimal digit string. -/
def valAux : Nat → List Char → Nat
  | v, [] => v
  | v, c :: cs => valAux (v * 10 + charVal c) cs

theorem charVal_digitChar {m : Nat} (h : m < 10) :
    charVal (Nat.digitChar m) = m := by
  interval_cases m <;> rfl

theorem toDigitsCore_step (b f n : Nat) (ds : List Char) :
    Nat.toDigitsCore b (f + 1) n ds =
      if n / b = 0 then Nat.digitChar (n % b) :: ds
      else Nat.toDigitsCore b f (n / b) (Nat.digitChar (n % b) :: ds) := rfl

theorem valAux_toDigitsCore :
    ∀ (fuel n : Nat) (ds : List Char) (v : Nat), n < fuel →
      ∃ e : Nat, 0 < e ∧
        valAux v (Nat.toDigitsCore 10 fuel n ds) = valAux (v * 10 ^ e + n) ds := by
  intro fuel
  induction fuel with
  | zero => intro n ds v h; omega
  | succ f ih =>
    intro n ds v h
    rw [toDigitsCore_step]
    by_cases hdiv : n / 10 = 0
    · refine ⟨1, Nat.one_pos, ?_⟩
      have hn : n < 10 := by omega
      rw [if_pos hdiv]
      show valAux (v * 10 + charVal (Nat.digitChar (n % 10))) ds
        = valAux (v * 10 ^ 1 + n) ds
      rw [charVal_digitChar (Nat.mod_lt n (by norm_num)), pow_one,
        Nat.mod_eq_of_lt hn]
    · have hn0 : 0 < n := by omega
      have hlt : n / 10 < f := by
        have := Nat.div_lt_self hn0 (by norm_num : (1:Nat) < 10)
        omega
      obtain ⟨e, he, heq⟩ := ih (n / 10) (Nat.digitChar (n % 10) :: ds) v hlt
      refine ⟨e + 1, by omega, ?_⟩
      rw [if_neg hdiv, heq]
      show valAux ((v * 10 ^ e + n / 10) * 10 + charVal (Nat.digitChar (n % 10))) ds
        = valAux (v * 10 ^ (e + 1) + n) ds
      rw [charVal_digitChar (Nat.mod_lt n (by norm_num)), pow_succ]
      congr 1
      have h10 : n / 10 * 10 + n % 10 = n := by omega
      calc (v * 10 ^ e + n / 10) * 10 + n % 10
          = v * (10 ^ e * 10) + (n / 10 * 10 + n % 10) := by ring
        _ = v * (10 ^ e * 10) + n := by rw [h10]

theorem valAux_toDigits (n : Nat) : valAux 0 (Nat.toDigits 10 n) = n := by
  obtain ⟨e, -, h⟩ := valAux_toDigitsCore (n + 1) n [] 0 (Nat.lt_succ_self n)
  have h2 : Nat.toDigits 10 n = Nat.toDigitsCore 10 (n + 1) n [] := rfl
  rw [h2, h]
  show 0 * 10 ^ e + n = n
  omega

theorem nat_repr_injective : Function.Injective Nat.repr := by
  intro a b h
  have hd : Nat.toDigits 10 a = Nat.toDigits 10 b := by
    simpa [Nat.repr, List.asString] using congrArg String.data h
  rw [← valAux_toDigits a, ← valAux_toDigits b, hd]

/-! ## Name construction and the planning search -/

/-- Cancel a shared right factor of a string concatenation. -/
theorem string_append_right_cancel {a b c : String} (h : a ++ c = b ++ c) :
    a = b := by
  apply String.ext
  have hd := congrArg String.data h
  rw [String.data_append, String.data_append] at hd
  exact List.append_cancel_right hd

/-- Cancel a shared left factor of a string concatenation. -/
theorem string_append_left_cancel {a b c : String} (h : c ++ a = c ++ b) :
    a = b := by
  apply String.ext
  have hd := congrArg String.data h
  rw [String.data_append, String.data_append] at hd
  exact List.append_cancel_left hd

/-- The file name tried at counter value `k` (main.rs 113–117):
`format!("{}.jpg", base_name)` when the counter is `0`,
`format!("{}_{}.jpg", base_name, counter)` afterwards. -/
def mkName (base : String) (k : Nat) : String :=
  if k = 0 then base ++ ".jpg" else base ++ "_" ++ Nat.repr k ++ ".jpg"

theorem mkName_injective (base : String) : Function.Injective (mkName base) := by
  intro a b h
  unfold mkName at h
  by_cases ha : a = 0 <;> by_cases hb : b = 0
  · omega
  · rw [if_pos ha, if_neg hb] at h
    have hl := congrArg String.length h
    simp only [String.length_append] at hl
    have h4 : (".jpg" : String).length = 4 := rfl
    have h1 : ("_" : String).length = 1 := rfl
    omega
  · rw [if_neg ha, if_pos hb] at h
    have hl := congrArg String.length h
    simp only [String.length_append] at hl
    have h4 : (".jpg" : String).length = 4 := rfl
    have h1 : ("_" : String).length = 1 := rfl
    omega
  · rw [if_neg ha, if_neg hb] at h
    have h2 := string_append_left_cancel (string_append_right_cancel h)
    exact nat_repr_injective h2

/-- `PathBuf::join` of the destination directory with a relative file
name (`args.out_dir.join(&out_name)`). -/
def joinPath (dir name : String) : String := dir ++ "/" ++ name

theorem joinPath_right_injective (dir : String) :
    Function.Injective (joinPath dir) := by
  intro a b h
  exact string_append_left_cancel h

/-- The loop condition of main.rs 119: the tried destination path does
not already exist on disk and the tried name has not been claimed by an
earlier move of this run (`!dest_path_candidate.exists() &&
used_names.insert(out_name)`). -/
def isFree (existing : List Path) (out_dir : String) (used : List String)
    (base : String) (k : Nat) : Prop :=
  joinPath out_dir (mkName base k) ∉ existing ∧ mkName base k ∉ used

instance (existing : List Path) (out_dir : String) (used : List String)
    (base : String) (k : Nat) :
    Decidable (isFree existing out_dir used base k) := by
  unfold isFree; infer_instance

/-- The collision-resolution loop of main.rs 112–123, starting at
counter value `k`: try `mkName base k`; stop with it when it is free,
otherwise advance the counter.  `existing` is the finite content of the
destination directory (full paths) observed at planning time; `fuel`
bounds the trials and `findName_isSome` shows the bound below is never
reached, so the fuel-free source loop is total. -/
def findName (existing : List Path) (out_dir : String) (used : List String)
    (base : String) : Nat → Nat → Option String
  | 0, _ => none
  | fuel + 1, k =>
    if isFree existing out_dir used base k then some (mkName base k)
    else findName existing out_dir used base fuel (k + 1)

theorem findName_zero (existing : List Path) (out_dir : String)
    (used : List String) (base : String) (k : Nat) :
    findName existing out_dir used base 0 k = none := rfl

theorem findName_step (existing : List Path) (out_dir : String)
    (used : List String) (base : String) (f k : Nat) :
    findName existing out_dir used base (f + 1) k =
      if isFree existing out_dir used base k then some (mkName base k)
      else findName existing out_dir used base f (k + 1) := rfl

/-- What a successful search returns: the name tried at the first free
counter value at or after the starting one. -/
theorem findName_sound (existing : List Path) (out_dir : String)
    (used : List String) (base : String) :
    ∀ (fuel k : Nat) (n : String),
      findName existing out_dir used base fuel k = some n →
      ∃ j, k ≤ j ∧ n = mkName base j ∧ isFree existing out_dir used base j ∧
        ∀ i, k ≤ i → i < j → ¬ isFree existing out_dir used base i := by
  intro fuel
  induction fuel with
  | zero =>
    intro k n h
    rw [findName_zero] at h
    exact absurd h (by simp)
  | succ f ih =>
    intro k n h
    rw [findName_step] at h
    by_cases hf : isFree existing out_dir used base k
    · rw [if_pos hf] at h
      refine ⟨k, le_refl k, (Option.some_inj.mp h).symm, hf, ?_⟩
      intro i h1 h2
      omega
    · rw [if_neg hf] at h
      obtain ⟨j, hkj, hn, hfree, hmin⟩ := ih (k + 1) n h
      refine ⟨j, by omega, hn, hfree, ?_⟩
      intro i h1 h2
      rcases eq_or_lt_of_le h1 with rfl | hlt
      · exact hf
      · exact hmin i (by omega) h2

/-- A failed search means every counter value it visited was blocked. -/
theorem findName_none (existing : List Path) (out_dir : String)
    (used : List String) (base : String) :
    ∀ (fuel k : Nat), findName existing out_dir used base fuel k = none →
      ∀ j, k ≤ j → j < k + fuel → ¬ isFree existing out_dir used base j := by
  intro fuel
  induction fuel with
  | zero => intro k _ j h1 h2; omega
  | succ f ih =>
    intro k h j h1 h2
    rw [findName_step] at h
    by_cases hf : isFree existing out_dir used base k
    · rw [if_pos hf] at h; exact absurd h (by simp)
    · rw [if_neg hf] at h
      rcases eq_or_lt_of_le h1 with rfl | hlt
      · exact hf
      · exact ih (k + 1) h j (by omega) (by omega)

/-- Termination of the collision loop (spec §4.2): with fuel one larger
than the number of blockable names — the destination directory's entries
plus the claimed names — the search cannot fail, because the tried names
are pairwise distinct so at most `|existing| + |used|` trials can be
blocked. -/
theorem findName_isSome (existing : List Path) (out_dir : String)
    (used : List String) (base : String) :
    (findName existing out_dir used base
      (existing.length + used.length + 1) 0).isSome = true := by
  by_contra hns
  have hnone : findName existing out_dir used base
      (existing.length + used.length + 1) 0 = none := by
    cases h : findName existing out_dir used base
        (existing.length + used.length + 1) 0 with
    | none => rfl
    | some n => rw [h] at hns; exact absurd rfl hns
  have hblocked := findName_none existing out_dir used base
    (existing.length + used.length + 1) 0 hnone
  have hinj : Function.Injective (fun j => joinPath out_dir (mkName base j)) := by
    intro a b h
    exact mkName_injective base (joinPath_right_injective out_dir h)
  have hnd : ((List.range (existing.length + used.length + 1)).map
      (fun j => joinPath out_dir (mkName base j))).Nodup :=
    List.Nodup.map hinj (List.nodup_range _)
  have hsub : ∀ x ∈ (List.range (existing.length + used.length + 1)).map
      (fun j => joinPath out_dir (mkName base j)),
      x ∈ existing ++ used.map (joinPath out_dir) := by
    intro x hx
    rw [List.mem_map] at hx
    obtain ⟨j, hj, rfl⟩ := hx
    rw [List.mem_range] at hj
    have hb := hblocked j (Nat.zero_le j) (by omega)
    unfold isFree at hb
    rw [List.mem_append]
    by_cases h1 : joinPath out_dir (mkName base j) ∈ existing
    · exact Or.inl h1
    · right
      by_cases h2 : mkName base j ∈ used
      · exact List.mem_map_of_mem (joinPath out_dir) h2
      · exact absurd ⟨h1, h2⟩ hb
  have hcard : ((List.range (existing.length + used.length + 1)).map
      (fun j => joinPath out_dir (mkName base j))).length ≤
      (existing ++ used.map (joinPath out_dir)).length := by
    calc ((List.range (existing.length + used.length + 1)).map
        (fun j => joinPath out_dir (mkName base j))).length
        = ((List.range (existing.length + used.length + 1)).map
          (fun j => joinPath out_dir (mkName base j))).toFinset.card :=
          (List.toFinset_card_of_nodup hnd).symm
      _ ≤ (existing ++ used.map (joinPath out_dir)).toFinset.card := by
          apply Finset.card_le_card
          intro x hx
          rw [List.mem_toFinset] at hx ⊢
          exact hsub x hx
      _ ≤ (existing ++ used.map (joinPath out_dir)).length :=
          List.toFinset_card_le _
  rw [List.length_map, List.length_range, List.length_append,
    List.length_map] at hcard
  omega

/-- The Namer (spec §4.2 `assign`): the collision loop of main.rs
112–123 run with its always-sufficient trial bound, total thanks to
`findName_isSome`. -/
def assignName (existing : List Path) (out_dir : String) (used : List String)
    (base : String) : String :=
  (findName existing out_dir used base (existing.length + used.length + 1) 0).get
    (findName_isSome existing out_dir used base)

/-- The assigned name is the name at the least free counter value. -/
theorem assignName_spec (existing : List Path) (out_dir : String)
    (used : List String) (base : String) :
    ∃ j, assignName existing out_dir used base = mkName base j ∧
      isFree existing out_dir used base j ∧
      ∀ i, i < j → ¬ isFree existing out_dir used base i := by
  have h : findName existing out_dir used base
      (existing.length + used.length + 1) 0 =
      some (assignName existing out_dir used base) := by
    unfold assignName
    exact (Option.eq_some_of_isSome (findName_isSome existing out_dir used base))
  obtain ⟨j, -, hn, hfree, hmin⟩ :=
    findName_sound existing out_dir used base _ 0 _ h
  exact ⟨j, hn, hfree, fun i hi => hmin i (Nat.zero_le i) hi⟩

/-- The assigned name is free: its destination path is not an existing
destination-directory entry and it is not yet claimed. -/
theorem assignName_free (existing : List Path) (out_dir : String)
    (used : List String) (base : String) :
    joinPath out_dir (assignName existing out_dir used base) ∉ existing ∧
      assignName existing out_dir used base ∉ used := by
  obtain ⟨j, hn, hfree, -⟩ := assignName_spec existing out_dir used base
  rw [hn]
  exact hfree

/-! ## Phase 2: sequential destination planning -/

/-- Character substitution: the model of Rust's `str::replace` with a
single-character pattern and a single-character replacement string,
written on the character list of the string. -/
def replaceChar (s : String) (c r : Char) : String :=
  ⟨s.data.map fun x => if x = c then r else x⟩

/-- The base-name construction of main.rs 110:
`date_str.replace(':', "-").replace(' ', "_")`. -/
def baseName (date_str : String) : String :=
  replaceChar (replaceChar date_str ':' '-') ' ' '_'

/-- Phase 2 (main.rs 106–125): iterate the extraction successes in
order, give each one the assigned destination path
(`args.out_dir.join(&out_name)`), insert the chosen name into
`used_names` and push the planned move. Returns the planned moves and
the final claimed-name set. -/
def phase2 (existing : List Path) (out_dir : String) :
    List (Path × String) → List String → List (Path × Path) × List String
  | [], used => ([], used)
  | (source_path, date_str) :: rest, used =>
    let out_name := assignName existing out_dir used (baseName date_str)
    let dest_path := joinPath out_dir out_name
    let next := phase2 existing out_dir rest (out_name :: used)
    ((source_path, dest_path) :: next.1, next.2)

/-! ## Phases 1 and 3, failure records, the full run -/

/-- The textual payload of a failed `fs::rename` (`std::io::Error`). -/
abbrev MoveError := String

/-- A failure record (spec §3): the failing source path, the stage, and
the reason.  The source stores these as formatted strings pushed into
the mutex-protected `failed_files`; the two `format!` sites of main.rs
94 and 136 determine stage and reason. -/
inductive FailureRecord where
  | extractionFailure (path : Path) (e : ExtractionError)
  | moveFailure (path : Path) (e : MoveError)
deriving DecidableEq

/-- The source path a failure record speaks about. -/
def FailureRecord.source : FailureRecord → Path
  | .extractionFailure p _ => p
  | .moveFailure p _ => p

/-- Phase 1 (main.rs 88–102): run `get_date_taken` over every candidate
and keep `(path, timestamp)` for the successes, in enumeration order
(rayon's indexed `par_iter().filter_map().collect()` preserves input
order).  `ext p` is the extraction outcome for candidate `p`. -/
def phase1 (ext : Path → Except ExtractionError String) (files : List Path) :
    List (Path × String) :=
  files.filterMap fun p => match ext p with
    | .ok date_str => some (p, date_str)
    | .error _ => none

/-- The failure records pushed by Phase 1 workers (main.rs 93–97), one
per candidate whose extraction failed. -/
def phase1Failures (ext : Path → Except ExtractionError String)
    (files : List Path) : List FailureRecord :=
  files.filterMap fun p => match ext p with
    | .ok _ => none
    | .error e => some (.extractionFailure p e)

/-- Phase 3 (main.rs 127–140), successful part: the planned moves whose
`fs::rename` succeeded.  `mv s d` is the outcome of renaming `s` to `d`
(`none` = success). -/
def phase3Moved (mv : Path → Path → Option MoveError)
    (moves : List (Path × Path)) : List (Path × Path) :=
  moves.filter fun m => (mv m.1 m.2).isNone

/-- Phase 3 (main.rs 127–140), failing part: one record per planned move
whose `fs::rename` failed. -/
def phase3Failures (mv : Path → Path → Option MoveError)
    (moves : List (Path × Path)) : List FailureRecord :=
  moves.filterMap fun m => (mv m.1 m.2).map (FailureRecord.moveFailure m.1)

/-- The observable outcome of the three phases. -/
structure RunResult where
  planned : List (Path × Path)
  moved : List (Path × Path)
  failures : List FailureRecord
deriving DecidableEq

/-- The three-phase pipeline of main.rs 83–150, after a successful
setup: `files` are the enumerated candidates, `ext` the per-candidate
extraction outcome, `existing` the destination directory content at
planning time, `mv` the per-move rename outcome. -/
def run (ext : Path → Except ExtractionError String)
    (mv : Path → Path → Option MoveError)
    (existing : List Path) (out_dir : String) (files : List Path) : RunResult :=
  let parsed_data := phase1 ext files
  let planned_moves := (phase2 existing out_dir parsed_data []).1
  { planned := planned_moves
    moved := phase3Moved mv planned_moves
    failures := phase1Failures ext files ++ phase3Failures mv planned_moves }

/-! ## Setup checks and exit behaviour (main.rs 49–62 and 144–152) -/

/-- Fatal setup failures (spec §7): they abort the run before any
candidate is touched. -/
inductive SetupError where
  | inputDirInvalid
  | outputDirNested
  | createDirFailed
deriving DecidableEq

/-- A path as its list of components, the view on which Rust's
`Path::starts_with` operates. -/
abbrev ComponentPath := List String

/-- `main` (main.rs 49–153).  `in_is_dir` models `args.in_dir.is_dir()`,
`create_ok` the success of `fs::create_dir_all(&args.out_dir)`;
`in_dir`/`out_dir_c` are the component views of the two directories used
by the `starts_with` check of line 57 and `out_dir` the textual view
used by `join`; `files`, `ext`, `existing`, `mv` as in `run`.  Each
`return Err(..)` reports to the error stream and makes the process exit
status non-zero; reaching the end (`Ok(())`) exits with status zero
regardless of the collected per-file failures, which are only printed. -/
def mainModel (in_is_dir create_ok : Bool) (in_dir out_dir_c : ComponentPath)
    (out_dir : String) (files : List Path)
    (ext : Path → Except ExtractionError String)
    (mv : Path → Path → Option MoveError)
    (existing : List Path) : Except SetupError RunResult :=
  if in_is_dir = false then .error .inputDirInvalid
  else if List.isPrefixOf in_dir out_dir_c then .error .outputDirNested
  else if create_ok = false then .error .createDirFailed
  else .ok (run ext mv existing out_dir files)

/-- The process exit status: `main` returning `Err` exits non-zero,
`Ok(())` exits zero. -/
def exitCode : Except SetupError RunResult → Nat
  | .error _ => 1
  | .ok _ => 0

/-! ## Helper lemmas about the phases -/

theorem phase2_map_fst (existing : List Path) (out_dir : String) :
    ∀ (l : List (Path × String)) (used : List String),
      (phase2 existing out_dir l used).1.map Prod.fst = l.map Prod.fst := by
  intro l
  induction l with
  | nil => intro used; rfl
  | cons hd tl ih =>
    intro used
    obtain ⟨p, ts⟩ := hd
    simp only [phase2, List.map_cons, List.cons.injEq, true_and]
    exact ih _

theorem phase2_countP_fst (existing : List Path) (out_dir : String) (p : Path) :
    ∀ (l : List (Path × String)) (used : List String),
      (phase2 existing out_dir l used).1.countP (fun m => m.1 = p)
        = l.countP (fun q => q.1 = p) := by
  intro l
  induction l with
  | nil => intro used; rfl
  | cons hd tl ih =>
    intro used
    obtain ⟨q, ts⟩ := hd
    simp only [phase2, List.countP_cons, ih]

theorem phase2_dest_mem (existing : List Path) (out_dir : String) :
    ∀ (l : List (Path × String)) (used : List String) (d : Path),
      d ∈ (phase2 existing out_dir l used).1.map Prod.snd →
      ∃ n, d = joinPath out_dir n ∧ n ∉ used ∧ joinPath out_dir n ∉ existing := by
  intro l
  induction l with
  | nil => intro used d h; exact absurd h (by simp [phase2])
  | cons hd tl ih =>
    intro used d h
    obtain ⟨p, ts⟩ := hd
    simp only [phase2, List.map_cons, List.mem_cons] at h
    rcases h with h | h
    · obtain ⟨hex, hus⟩ := assignName_free existing out_dir used (baseName ts)
      exact ⟨assignName existing out_dir used (baseName ts), h, hus, hex⟩
    · obtain ⟨n, hn, hnus, hnex⟩ := ih _ d h
      refine ⟨n, hn, fun hmem => hnus (List.mem_cons_of_mem _ hmem), hnex⟩

theorem phase2_dests_nodup (existing : List Path) (out_dir : String) :
    ∀ (l : List (Path × String)) (used : List String),
      ((phase2 existing out_dir l used).1.map Prod.snd).Nodup := by
  intro l
  induction l with
  | nil => intro used; simp [phase2]
  | cons hd tl ih =>
    intro used
    obtain ⟨p, ts⟩ := hd
    simp only [phase2, List.map_cons, List.nodup_cons]
    refine ⟨?_, ih _⟩
    intro hmem
    obtain ⟨n, hn, hnus, -⟩ := phase2_dest_mem existing out_dir tl _ _ hmem
    have : n = assignName existing out_dir used (baseName ts) :=
      joinPath_right_injective out_dir hn.symm
    exact hnus (this ▸ List.mem_cons_self n _)

theorem phase2_mem_source (existing : List Path) (out_dir : String) :
    ∀ (l : List (Path × String)) (used : List String) (p : Path) (ts : String),
      (p, ts) ∈ l → ∃ d, (p, d) ∈ (phase2 existing out_dir l used).1 := by
  intro l
  induction l with
  | nil => intro used p ts h; exact absurd h (by simp)
  | cons hd tl ih =>
    intro used p ts h
    obtain ⟨q, ts'⟩ := hd
    rcases List.mem_cons.mp h with h | h
    · obtain ⟨rfl, rfl⟩ := Prod.mk.injEq .. ▸ h
      exact ⟨_, List.mem_cons_self _ _⟩
    · obtain ⟨d, hd⟩ := ih (assignName existing out_dir used (baseName ts') :: used)
        p ts h
      exact ⟨d, List.mem_cons_of_mem _ hd⟩

theorem phase1_mem (ext : Path → Except ExtractionError String)
    (files : List Path) (p : Path) (ts : String) :
    (p, ts) ∈ phase1 ext files ↔ p ∈ files ∧ ext p = .ok ts := by
  unfold phase1
  rw [List.mem_filterMap]
  constructor
  · rintro ⟨a, ha, hfa⟩
    cases h : ext a with
    | ok d =>
      rw [h] at hfa
      obtain ⟨rfl, rfl⟩ : a = p ∧ d = ts := by
        simpa using hfa
      exact ⟨ha, h⟩
    | error e => rw [h] at hfa; exact absurd hfa (by simp)
  · rintro ⟨hp, hext⟩
    exact ⟨p, hp, by rw [hext]⟩

theorem phase1Failures_mem (ext : Path → Except ExtractionError String)
    (files : List Path) (p : Path) (e : ExtractionError) :
    FailureRecord.extractionFailure p e ∈ phase1Failures ext files ↔
      p ∈ files ∧ ext p = .error e := by
  unfold phase1Failures
  rw [List.mem_filterMap]
  constructor
  · rintro ⟨a, ha, hfa⟩
    cases h : ext a with
    | ok d => rw [h] at hfa; exact absurd hfa (by simp)
    | error e' =>
      rw [h] at hfa
      obtain ⟨rfl, rfl⟩ : a = p ∧ e' = e := by
        simpa [FailureRecord.extractionFailure.injEq] using hfa
      exact ⟨ha, h⟩
  · rintro ⟨hp, hext⟩
    exact ⟨p, hp, by rw [hext]⟩

theorem FailureRecord.source_extraction (p : Path) (e : ExtractionError) :
    (FailureRecord.extractionFailure p e).source = p := rfl

theorem FailureRecord.source_move (p : Path) (e : MoveError) :
    (FailureRecord.moveFailure p e).source = p := rfl

theorem phase1_split (ext : Path → Except ExtractionError String) (p : Path) :
    ∀ files : List Path,
      (phase1 ext files).countP (fun q => q.1 = p)
        + (phase1Failures ext files).countP (fun r => r.source = p)
        = files.countP (fun q => q = p) := by
  intro files
  induction files with
  | nil => rfl
  | cons f rest ih =>
    cases h : ext f with
    | ok d =>
      simp only [phase1, phase1Failures, List.filterMap_cons, h] at ih ⊢
      rw [List.countP_cons, List.countP_cons]
      simp only [decide_eq_true_eq]
      by_cases hp : f = p
      · rw [if_pos hp]; omega
      · rw [if_neg hp]; omega
    | error e =>
      simp only [phase1, phase1Failures, List.filterMap_cons, h] at ih ⊢
      rw [List.countP_cons, List.countP_cons]
      simp only [FailureRecord.source_extraction, decide_eq_true_eq]
      by_cases hp : f = p
      · rw [if_pos hp]; omega
      · rw [if_neg hp]; omega

theorem phase3_split (mv : Path → Path → Option MoveError) (p : Path) :
    ∀ moves : List (Path × Path),
      (phase3Moved mv moves).countP (fun m => m.1 = p)
        + (phase3Failures mv moves).countP (fun r => r.source = p)
        = moves.countP (fun m => m.1 = p) := by
  intro moves
  induction moves with
  | nil => rfl
  | cons m rest ih =>
    cases h : mv m.1 m.2 with
    | none =>
      simp only [phase3Moved, phase3Failures, List.filter_cons,
        List.filterMap_cons, h, Option.isNone_none, Option.map_none'] at ih ⊢
      rw [if_pos trivial, List.countP_cons, List.countP_cons]
      simp only [decide_eq_true_eq]
      by_cases hp : m.1 = p
      · rw [if_pos hp]; omega
      · rw [if_neg hp]; omega
    | some e =>
      simp only [phase3Moved, phase3Failures, List.filter_cons,
        List.filterMap_cons, h, Option.isNone_some, Option.map_some'] at ih ⊢
      rw [if_neg (by simp), List.countP_cons, List.countP_cons]
      simp only [FailureRecord.source_move, decide_eq_true_eq]
      by_cases hp : m.1 = p
      · rw [if_pos hp]; omega
      · rw [if_neg hp]; omega

theorem countP_eq_one_of_nodup_mem {l : List Path} {p : Path}
    (hnd : l.Nodup) (hmem : p ∈ l) :
    l.countP (fun q => q = p) = 1 := by
  induction l with
  | nil => exact absurd hmem (by simp)
  | cons a rest ih =>
    rw [List.nodup_cons] at hnd
    rw [List.countP_cons]
    rcases List.mem_cons.mp hmem with rfl | hm
    · have hz : rest.countP (fun q => q = p) = 0 :=
        List.countP_eq_zero.mpr (fun a ha hqa => hnd.1 ((by simpa using hqa) ▸ ha))
      simp [hz]
    · rw [ih hnd.2 hm]
      have hne : a ≠ p := fun hap => hnd.1 (hap ▸ hm)
      simp [hne]

/-- `List.find?` returns the first element satisfying the predicate. -/
theorem find?_first {α : Type} (p : α → Bool) :
    ∀ (l1 : List α) (a : α) (l2 : List α),
      (∀ x ∈ l1, ¬ p x = true) → p a = true →
      List.find? p (l1 ++ a :: l2) = some a := by
  intro l1
  induction l1 with
  | nil =>
    intro a l2 _ hp
    rw [List.nil_append]
    exact List.find?_cons_of_pos l2 hp
  | cons b t ih =>
    intro a l2 h hp
    rw [List.cons_append, List.find?_cons_of_neg _ (h b (List.mem_cons_self b t))]
    exact ih a l2 (fun x hx => h x (List.mem_cons_of_mem b hx)) hp

/-- Unfolding of `get_date_taken` on a successfully read file. -/
theorem get_date_taken_ok_eq (content : List Nat) (pb : Decoder) (fs : Bool) :
    get_date_taken (.ok content) pb fs =
      match pb (if fs then content else content.take prefixBound) with
      | .error _ => .error .decodeFailure
      | .ok entries =>
        match entries.find? (fun e => e.tag = ExifTag.dateTimeOriginal) with
        | some entry => .ok entry.value
        | none => .error .tagNotFound := rfl

/-- The bounded mode equals the full-scan mode run on the 64 KiB prefix. -/
theorem get_date_taken_bounded (content : List Nat) (pb : Decoder) :
    get_date_taken (.ok content) pb false
      = get_date_taken (.ok (content.take prefixBound)) pb true := rfl

/-! ## The claims -/

/-- **C1.**  For every set of planned moves produced by a single planning
pass (Phase 2, started as `main` does with an empty claimed-name set),
over any list of extraction successes — with arbitrarily repeated
timestamp strings — and any destination-directory content observed at
planning time, the destination paths are pairwise distinct and none of
them coincides with a pre-existing destination-directory entry. -/
theorem c1_no_collisions (existing : List Path) (out_dir : String)
    (parsed_data : List (Path × String)) :
    ((phase2 existing out_dir parsed_data []).1.map Prod.snd).Nodup ∧
    (∀ d ∈ (phase2 existing out_dir parsed_data []).1.map Prod.snd,
      d ∉ existing) := by
  refine ⟨phase2_dests_nodup existing out_dir parsed_data [], ?_⟩
  intro d hd
  obtain ⟨n, rfl, -, hnex⟩ := phase2_dest_mem existing out_dir parsed_data [] d hd
  exact hnex

/-- **C3.**  The namer builds the base name by substituting `-` for every
`:` and `_` for every space of the timestamp; the name tried at counter
`0` is the base name with `.jpg` appended, the one at counter `k ≥ 1`
carries the suffix `_k`; and the assigned name is the one at the least
counter value that is simultaneously unclaimed and whose destination
path is absent from the destination directory's existing entries. -/
theorem c3_naming (existing : List Path) (out_dir : String)
    (used : List String) (ts : String) :
    (baseName ts).data = ts.data.map
      (fun c => if c = ':' then '-' else if c = ' ' then '_' else c) ∧
    mkName (baseName ts) 0 = baseName ts ++ ".jpg" ∧
    (∀ k, k ≠ 0 →
      mkName (baseName ts) k = baseName ts ++ "_" ++ Nat.repr k ++ ".jpg") ∧
    ∃ k, assignName existing out_dir used (baseName ts) = mkName (baseName ts) k ∧
      isFree existing out_dir used (baseName ts) k ∧
      ∀ i, i < k → ¬ isFree existing out_dir used (baseName ts) i := by
  refine ⟨?_, rfl, fun k hk => by rw [mkName, if_neg hk], ?_⟩
  · show ((ts.data.map fun x => if x = ':' then '-' else x).map
        fun x => if x = ' ' then '_' else x) = _
    rw [List.map_map]
    apply List.map_congr_left
    intro c _
    by_cases h1 : c = ':'
    · subst h1; rfl
    · by_cases h2 : c = ' '
      · subst h2; rfl
      · simp [Function.comp, h1, h2]
  · obtain ⟨k, hn, hfree, hmin⟩ := assignName_spec existing out_dir used (baseName ts)
    exact ⟨k, hn, hfree, hmin⟩

/-- **C5.**  The namer never fails: for every timestamp string, every
finite claimed-name set and every finite destination-directory content,
the collision-resolution loop terminates — within a number of trials
bounded by the number of blockable names — and produces the assigned
destination name. -/
theorem c5_namer_terminates (existing : List Path) (out_dir : String)
    (used : List String) (ts : String) :
    ∃ n, findName existing out_dir used (baseName ts)
        (existing.length + used.length + 1) 0 = some n ∧
      assignName existing out_dir used (baseName ts) = n := by
  refine ⟨assignName existing out_dir used (baseName ts), ?_, rfl⟩
  exact Option.eq_some_of_isSome (findName_isSome existing out_dir used (baseName ts))

/-- **C2.**  Partition property: after a full run, every input candidate
is accounted for exactly once across the successfully moved files and
the failure records — a candidate failing extraction or its move has
exactly one failure record, a moved candidate has none, and no candidate
is both moved and recorded, or neither. -/
theorem c2_partition (ext : Path → Except ExtractionError String)
    (mv : Path → Path → Option MoveError) (existing : List Path)
    (out_dir : String) (files : List Path) (p : Path)
    (hnd : files.Nodup) (hmem : p ∈ files) :
    (run ext mv existing out_dir files).moved.countP (fun m => m.1 = p)
      + (run ext mv existing out_dir files).failures.countP
        (fun r => r.source = p) = 1 := by
  have h3 := phase3_split mv p (phase2 existing out_dir (phase1 ext files) []).1
  have h2 := phase2_countP_fst existing out_dir p (phase1 ext files) []
  have h1 := phase1_split ext p files
  have hc := countP_eq_one_of_nodup_mem hnd hmem
  show (phase3Moved mv (phase2 existing out_dir (phase1 ext files) []).1).countP
        (fun m => m.1 = p)
      + ((phase1Failures ext files
          ++ phase3Failures mv (phase2 existing out_dir (phase1 ext files) []).1).countP
        (fun r => r.source = p)) = 1
  rw [List.countP_append]
  omega

/-- **C2 witness.**  A concrete two-candidate run — one success, one
extraction failure — in which each candidate is accounted for exactly
once. -/
theorem c2_partition_witness :
    (run (fun p => if p = "a.jpg" then .ok "2023:05:01 10:00:00"
        else .error .tagNotFound)
      (fun _ _ => none) [] "out" ["a.jpg", "b.jpg"]).moved.countP
        (fun m => m.1 = "b.jpg")
      + (run (fun p => if p = "a.jpg" then .ok "2023:05:01 10:00:00"
          else .error .tagNotFound)
        (fun _ _ => none) [] "out" ["a.jpg", "b.jpg"]).failures.countP
        (fun r => r.source = "b.jpg") = 1 :=
  c2_partition _ _ [] "out" ["a.jpg", "b.jpg"] "b.jpg"
    (by decide) (by decide)

/-- **C4.**  The final destination-name assignment is deterministic and
reproducible: the planned moves are a function of the enumerated
candidates (in their enumeration order), the extraction outcomes and the
destination-directory contents alone — in particular they are the same
whatever the move outcomes are — and Phase 2 processes the extraction
successes exactly in the order the candidates were enumerated. -/
theorem c4_deterministic (ext ext' : Path → Except ExtractionError String)
    (mv mv' : Path → Path → Option MoveError)
    (existing existing' : List Path) (out_dir out_dir' : String)
    (files files' : List Path)
    (hext : ext = ext') (hex : existing = existing')
    (hod : out_dir = out_dir') (hf : files = files') :
    (run ext mv existing out_dir files).planned
      = (run ext' mv' existing' out_dir' files').planned ∧
    (run ext mv existing out_dir files).planned.map Prod.fst
      = (phase1 ext files).map Prod.fst := by
  subst hext hex hod hf
  exact ⟨rfl, phase2_map_fst existing out_dir (phase1 ext files) []⟩

/-- **C4 witness.**  Two runs over the same inputs (with different move
outcomes) assign identical destinations, in enumeration order. -/
theorem c4_deterministic_witness :
    (run (fun _ => .ok "2023:05:01 10:00:00") (fun _ _ => none) [] "out"
        ["a.jpg", "b.jpg"]).planned
      = (run (fun _ => .ok "2023:05:01 10:00:00") (fun _ _ => some "denied") []
        "out" ["a.jpg", "b.jpg"]).planned ∧
    (run (fun _ => .ok "2023:05:01 10:00:00") (fun _ _ => none) [] "out"
        ["a.jpg", "b.jpg"]).planned.map Prod.fst
      = (phase1 (fun _ => .ok "2023:05:01 10:00:00") ["a.jpg", "b.jpg"]).map
        Prod.fst :=
  c4_deterministic _ _ _ _ [] [] "out" "out" ["a.jpg", "b.jpg"]
    ["a.jpg", "b.jpg"] rfl rfl rfl rfl

/-- **C7.**  Per-file failures are isolated.  For any candidate of the
batch: if its extraction fails it gets a failure record, is excluded
from the planned moves and is never moved (left untouched); if its
extraction succeeds it is planned — whatever happened to every other
candidate — and its move either succeeds or yields its own move-failure
record.  Nothing about one candidate's failure aborts the others: the
statement holds for all extraction/move outcome assignments
simultaneously. -/
theorem c7_failure_isolation (ext : Path → Except ExtractionError String)
    (mv : Path → Path → Option MoveError) (existing : List Path)
    (out_dir : String) (files : List Path) (p : Path) (hp : p ∈ files) :
    (∀ e, ext p = .error e →
      FailureRecord.extractionFailure p e
          ∈ (run ext mv existing out_dir files).failures ∧
        p ∉ (run ext mv existing out_dir files).planned.map Prod.fst ∧
        ∀ d, (p, d) ∉ (run ext mv existing out_dir files).moved) ∧
    (∀ ts, ext p = .ok ts →
      ∃ d, (p, d) ∈ (run ext mv existing out_dir files).planned ∧
        (mv p d = none → (p, d) ∈ (run ext mv existing out_dir files).moved) ∧
        ∀ m, mv p d = some m →
          FailureRecord.moveFailure p m
            ∈ (run ext mv existing out_dir files).failures) := by
  constructor
  · intro e he
    have hnotplanned :
        p ∉ (run ext mv existing out_dir files).planned.map Prod.fst := by
      show p ∉ (phase2 existing out_dir (phase1 ext files) []).1.map Prod.fst
      rw [phase2_map_fst]
      intro hmem
      obtain ⟨q, hq, hq1⟩ := List.mem_map.mp hmem
      have hq' : q.1 ∈ files ∧ ext q.1 = .ok q.2 :=
        (phase1_mem ext files q.1 q.2).mp hq
      rw [hq1, he] at hq'
      exact absurd hq'.2 (by simp)
    refine ⟨?_, hnotplanned, ?_⟩
    · show _ ∈ phase1Failures ext files
          ++ phase3Failures mv (phase2 existing out_dir (phase1 ext files) []).1
      exact List.mem_append_left _ ((phase1Failures_mem ext files p e).mpr ⟨hp, he⟩)
    · intro d hmoved
      have hplanned : (p, d) ∈ (phase2 existing out_dir (phase1 ext files) []).1 :=
        (List.mem_filter.mp hmoved).1
      exact hnotplanned (List.mem_map_of_mem Prod.fst hplanned)
  · intro ts hts
    have hparsed : (p, ts) ∈ phase1 ext files :=
      (phase1_mem ext files p ts).mpr ⟨hp, hts⟩
    obtain ⟨d, hd⟩ := phase2_mem_source existing out_dir (phase1 ext files) []
      p ts hparsed
    refine ⟨d, hd, ?_, ?_⟩
    · intro hmv
      show (p, d) ∈ phase3Moved mv (phase2 existing out_dir (phase1 ext files) []).1
      exact List.mem_filter.mpr ⟨hd, by simp [hmv]⟩
    · intro m hmv
      show _ ∈ phase1Failures ext files
          ++ phase3Failures mv (phase2 existing out_dir (phase1 ext files) []).1
      refine List.mem_append_right _ ?_
      exact List.mem_filterMap.mpr ⟨(p, d), hd, by simp [hmv]⟩

/-- **C7 witness.**  In a concrete batch where `c.jpg` fails extraction,
`c.jpg` is recorded, unplanned and unmoved. -/
theorem c7_failure_isolation_witness :
    FailureRecord.extractionFailure "c.jpg" ExtractionError.tagNotFound
        ∈ (run (fun p => if p = "c.jpg" then .error .tagNotFound
            else .ok "2023:05:01 10:00:00")
          (fun _ _ => none) [] "out" ["a.jpg", "c.jpg"]).failures ∧
      "c.jpg" ∉ (run (fun p => if p = "c.jpg" then .error .tagNotFound
            else .ok "2023:05:01 10:00:00")
          (fun _ _ => none) [] "out" ["a.jpg", "c.jpg"]).planned.map Prod.fst ∧
      ∀ d, ("c.jpg", d) ∉ (run (fun p => if p = "c.jpg" then .error .tagNotFound
            else .ok "2023:05:01 10:00:00")
          (fun _ _ => none) [] "out" ["a.jpg", "c.jpg"]).moved :=
  (c7_failure_isolation _ _ [] "out" ["a.jpg", "c.jpg"] "c.jpg"
    (by decide)).1 ExtractionError.tagNotFound (by rfl)

/-- **C6.**  If the output directory path is identical to or nested
inside the input directory path (component-wise prefix, the semantics of
`Path::starts_with`), the run aborts with a configuration error and a
non-zero exit status, and the outcome is independent of the
enumeration, extraction and move behaviour — no file is enumerated,
extracted or moved. -/
theorem c6_nested_output_aborts (in_is_dir create_ok : Bool)
    (in_dir out_dir_c : ComponentPath) (out_dir : String) (files : List Path)
    (ext : Path → Except ExtractionError String)
    (mv : Path → Path → Option MoveError) (existing : List Path)
    (hnested : List.isPrefixOf in_dir out_dir_c = true) :
    (∃ e, mainModel in_is_dir create_ok in_dir out_dir_c out_dir files ext mv
        existing = .error e) ∧
    exitCode (mainModel in_is_dir create_ok in_dir out_dir_c out_dir files ext
        mv existing) ≠ 0 ∧
    ∀ (out_dir' : String) (files' : List Path)
      (ext' : Path → Except ExtractionError String)
      (mv' : Path → Path → Option MoveError) (existing' : List Path),
      mainModel in_is_dir create_ok in_dir out_dir_c out_dir' files' ext' mv'
          existing'
        = mainModel in_is_dir create_ok in_dir out_dir_c out_dir files ext mv
          existing := by
  cases in_is_dir with
  | false =>
    refine ⟨⟨.inputDirInvalid, rfl⟩, by simp [mainModel, exitCode], ?_⟩
    intro out_dir' files' ext' mv' existing'
    rfl
  | true =>
    have hmain : ∀ (od : String) (fs : List Path)
        (ex : Path → Except ExtractionError String)
        (mv0 : Path → Path → Option MoveError) (exist : List Path),
        mainModel true create_ok in_dir out_dir_c od fs ex mv0 exist
          = .error .outputDirNested := by
      intro od fs ex mv0 exist
      unfold mainModel
      rw [if_neg (by simp), if_pos hnested]
    refine ⟨⟨.outputDirNested, hmain _ _ _ _ _⟩, ?_, ?_⟩
    · rw [hmain]
      simp [exitCode]
    · intro out_dir' files' ext' mv' existing'
      rw [hmain, hmain]

/-- **C6 witness.**  With the output directory `in/sub` nested inside the
input directory `in`, the run aborts with a non-zero exit status. -/
theorem c6_nested_output_aborts_witness :
    (∃ e, mainModel true true ["in"] ["in", "sub"] "in/sub" ["in/a.jpg"]
        (fun _ => .ok "2023:05:01 10:00:00") (fun _ _ => none) []
        = .error e) ∧
    exitCode (mainModel true true ["in"] ["in", "sub"] "in/sub" ["in/a.jpg"]
        (fun _ => .ok "2023:05:01 10:00:00") (fun _ _ => none) []) ≠ 0 ∧
    ∀ (out_dir' : String) (files' : List Path)
      (ext' : Path → Except ExtractionError String)
      (mv' : Path → Path → Option MoveError) (existing' : List Path),
      mainModel true true ["in"] ["in", "sub"] out_dir' files' ext' mv'
          existing'
        = mainModel true true ["in"] ["in", "sub"] "in/sub" ["in/a.jpg"]
          (fun _ => .ok "2023:05:01 10:00:00") (fun _ _ => none) [] :=
  c6_nested_output_aborts true true ["in"] ["in", "sub"] "in/sub" ["in/a.jpg"]
    (fun _ => .ok "2023:05:01 10:00:00") (fun _ _ => none) [] (by decide)

/-- **C9.**  The exit code reflects only setup-level failures: the
process exits with status zero exactly when the input directory is
valid, the output directory is not nested in the input directory and the
output directory could be created — for every extraction and move
outcome, i.e. however many per-file failures occur. -/
theorem c9_exit_code (in_is_dir create_ok : Bool)
    (in_dir out_dir_c : ComponentPath) (out_dir : String) (files : List Path)
    (ext : Path → Except ExtractionError String)
    (mv : Path → Path → Option MoveError) (existing : List Path) :
    exitCode (mainModel in_is_dir create_ok in_dir out_dir_c out_dir files ext
        mv existing) = 0 ↔
      in_is_dir = true ∧ List.isPrefixOf in_dir out_dir_c = false ∧
        create_ok = true := by
  unfold mainModel
  cases in_is_dir with
  | false => simp [exitCode]
  | true =>
    rw [if_neg (by simp)]
    cases hpre : List.isPrefixOf in_dir out_dir_c with
    | true => simp [exitCode]
    | false =>
      rw [if_neg (by simp)]
      cases create_ok with
      | false => simp [exitCode]
      | true => simp [exitCode]

/-- **C8.**  `get_date_taken` fails with the I/O kind when the file
cannot be opened or read; otherwise, with the decode kind when the
decoder rejects the buffer it was handed; otherwise it returns the
string value of the first `DateTimeOriginal` entry of the decoded tag
list verbatim, and fails with the tag-not-found kind exactly when no
such entry exists. -/
theorem c8_extraction (fileContent : ReadResult) (parse_buffer : Decoder)
    (full_scan : Bool) :
    (∀ e, fileContent = .error e →
      get_date_taken fileContent parse_buffer full_scan = .error .ioFailure) ∧
    (∀ content, fileContent = .ok content →
      (∀ e, parse_buffer (if full_scan then content
          else content.take prefixBound) = .error e →
        get_date_taken fileContent parse_buffer full_scan
          = .error .decodeFailure) ∧
      (∀ entries, parse_buffer (if full_scan then content
          else content.take prefixBound) = .ok entries →
        (∀ l1 en l2, entries = l1 ++ en :: l2 →
          (∀ x ∈ l1, x.tag ≠ ExifTag.dateTimeOriginal) →
          en.tag = ExifTag.dateTimeOriginal →
          get_date_taken fileContent parse_buffer full_scan = .ok en.value) ∧
        (get_date_taken fileContent parse_buffer full_scan
            = .error .tagNotFound ↔
          ∀ x ∈ entries, x.tag ≠ ExifTag.dateTimeOriginal))) := by
  cases fileContent with
  | error e0 =>
    refine ⟨fun e _ => rfl, fun content hc => absurd hc (by simp)⟩
  | ok content =>
    refine ⟨fun e he => absurd he (by simp), ?_⟩
    intro c hc
    obtain rfl : content = c := by simpa using hc
    constructor
    · intro e hpb
      rw [get_date_taken_ok_eq, hpb]
    · intro entries hpb
      have hgdt : get_date_taken (.ok content) parse_buffer full_scan =
          match entries.find? (fun e => e.tag = ExifTag.dateTimeOriginal) with
          | some entry => .ok entry.value
          | none => .error .tagNotFound := by
        rw [get_date_taken_ok_eq, hpb]
      constructor
      · intro l1 en l2 hsplit hl1 hen
        rw [hgdt, hsplit, find?_first _ l1 en l2 (by simpa using hl1)
          (by simpa using hen)]
      · rw [hgdt]
        cases hfind : entries.find? (fun e => e.tag = ExifTag.dateTimeOriginal)
          with
        | none =>
          simp only [List.find?_eq_none] at hfind
          simpa using hfind
        | some en =>
          have hne : ¬ (∀ x ∈ entries, x.tag ≠ ExifTag.dateTimeOriginal) := by
            have hmem := List.mem_of_find?_eq_some hfind
            have htag : en.tag = ExifTag.dateTimeOriginal := by
              simpa using List.find?_some hfind
            exact fun hall => (hall en hmem) htag
          simp [hne]

/-- **C10.**  For every file content of at most 64 KiB, the default
bounded-prefix mode passes exactly the same bytes to the decoder as the
full-scan mode, so the two modes return the same result; they can differ
only for larger files. -/
theorem c10_small_files_equal (content : List Nat) (parse_buffer : Decoder)
    (hsmall : content.length ≤ prefixBound) :
    content.take prefixBound = content ∧
    ∀ full_scan : Bool,
      get_date_taken (.ok content) parse_buffer full_scan
        = get_date_taken (.ok content) parse_buffer true := by
  have htake : content.take prefixBound = content := List.take_of_length_le hsmall
  refine ⟨htake, ?_⟩
  intro full_scan
  cases full_scan with
  | true => rfl
  | false => rw [get_date_taken_bounded, htake]

/-- **C10 witness.**  A concrete 3-byte file is decoded identically in
both modes. -/
theorem c10_small_files_equal_witness :
    [7, 8, 9].take prefixBound = [7, 8, 9] ∧
    ∀ full_scan : Bool,
      get_date_taken (.ok [7, 8, 9]) (fun _ => .error ()) full_scan
        = get_date_taken (.ok [7, 8, 9]) (fun _ => .error ()) true :=
  c10_small_files_equal [7, 8, 9] (fun _ => .error ()) (by decide)

end ExifSort
